import Mathlib

/-!
Verification of minshell (wyattades/minshell): a shallow embedding of the
tokenizer (`lex.l`), the command builder (`new_cmd` / `parse` in
`minshell.c`), the built-in handlers (`cmd_cd`, `cmd_exit`) and the
executor's control flow (`spawn`, `exec`, `exec_pipe`, and the dispatch in
`main`), together with theorems about the claims of the specification.

Conventions of the embedding:
- C strings are Lean `String`s; tokens produced by the lexer never contain
  an interior NUL, so `s[i]` of a NUL-terminated C string is modelled by
  `charAt` (reading `'\0'` past the end) and exact C-string comparisons such
  as `arg[1] == '\0' && arg[0] == '|'` are modelled by string equality.
- OS effects are modelled by explicit parameters: the `HOME` variable is an
  `Option String`, the success of `chdir` is a predicate `String → Bool`,
  `fork` is assumed to succeed (resource exhaustion is outside the model),
  and the order in which `wait` reaps children is an explicit list of the
  children's exit statuses in reap order.
-/

namespace Minshell

/-- The NUL character, C's `'\0'`. -/
def nulChar : Char := Char.ofNat 0

/-- `charAt s i` models reading `s[i]` from a NUL-terminated C string:
positions at or past the end read as `'\0'`. -/
def charAt (s : String) (i : Nat) : Char := s.data.getD i nulChar

/-- minshell.c: `#define CMD_SUCCESS 0`. -/
def CMD_SUCCESS : Nat := 0

/-- minshell.c: `#define CMD_FAILURE 1`. -/
def CMD_FAILURE : Nat := 1

/-- minshell.c: `#define CMD_EXIT 2`. -/
def CMD_EXIT : Nat := 2

/-! ## Tokenizer (lex.l) -/

/-- lex.l: the character class `WORD [~a-zA-Z0-9\/\.-]+`. -/
def wordChar (c : Char) : Bool :=
  c = '~' || ('a' ≤ c && c ≤ 'z') || ('A' ≤ c && c ≤ 'Z') ||
  ('0' ≤ c && c ≤ '9') || c = '/' || c = '.' || c = '-'

/-- lex.l: a maximal run of `WORD` characters is emitted as a word token,
except that the exact keywords `exit` and `cd` are emitted as the built-in
marker tokens `"\ne"` and `"\nc"` (`_ADD_TOK` stores `_tok = "\n" + T` with
`T_EXIT = 'e'`, `T_CD = 'c'`); on a tie in match length flex prefers the
earlier rule, so the keyword rules win exactly when the whole run is the
keyword. -/
def keywordTok (w : String) : String :=
  if w = "exit" then "\ne" else if w = "cd" then "\nc" else w

/-- lex.l: the scanning loop of `yylex` for one input line.  Flex picks the
longest match, preferring earlier rules on ties, so at `||` the two-character
ignore rule beats the one-character `SPECIAL` rule; a run of `WORD`
characters beats any shorter match; `<`, `>`, `|` are single-character
tokens; spaces, tabs and any unrecognized character are skipped.  The fuel
argument only forces termination; `lexTokens` supplies enough fuel for the
whole line, and every step consumes at least one character. -/
def lexTokensF : Nat → List Char → List String
  | 0, _ => []
  | _ + 1, [] => []
  | fuel + 1, '|' :: '|' :: rest => lexTokensF fuel rest
  | fuel + 1, c :: rest =>
    if wordChar c then
      keywordTok (String.mk (c :: rest.takeWhile wordChar)) ::
        lexTokensF fuel (rest.dropWhile wordChar)
    else if c = '<' || c = '>' || c = '|' then
      String.mk [c] :: lexTokensF fuel rest
    else
      lexTokensF fuel rest

/-- The token sequence of one input line (the line's characters, without its
terminating newline, semicolon or end-of-input). -/
def lexTokens (line : List Char) : List String := lexTokensF line.length line

/-- lex.l `_add_arg` stores a token only while `_argcount < _NUMARGS - 1`
with `_NUMARGS = 64`, so at most 63 tokens are kept and the rest of the line
is dropped; `getline` hands the stored tokens to `main`. -/
def getline (line : List Char) : List String := (lexTokens line).take 63

/-! ## Command builder (new_cmd, parse) -/

/-- minshell.c `Cmd`: argument list (`args` limited to `argn` entries),
input-redirect filenames and output-redirect filenames.  The C arrays are
NUL-terminated; here the lists carry exactly the stored entries. -/
structure Cmd where
  args : List String
  files_in : List String
  files_out : List String
deriving DecidableEq, Repr

/-- minshell.c: `arg[1] == '\0' && (arg[0] == '<' || arg[0] == '>')`, i.e.
the token is exactly `<` or `>`. -/
def isRedirectTok (a : String) : Bool := a == "<" || a == ">"

/-- minshell.c: `arg[1] == '\0' && arg[0] == '|'`, i.e. the token is exactly
`|`. -/
def isPipeTok (a : String) : Bool := a == "|"

/-- The scanning loop of `new_cmd` (minshell.c lines 128-151), carrying the
loop state structurally instead of by index arithmetic:
- `adj` models `i - last_index == 0`: `last_index` is `0` initially and
  `i + 1` right after the redirect symbol at index `i`, so the condition
  holds exactly at index 0 and immediately after a redirect symbol; `adj`
  starts `true` and is set per element accordingly;
- `rest = []` models `i == argn - 1` (the current element is the last);
- `last_symbol` is C's `last_symbol` (`'\0'` until a redirect is seen);
- the returned triple collects, in order, the elements that stay in the
  argument list (those before the first redirect symbol, i.e. C's
  `args[0..._argn)`), the input-redirect filenames and the output-redirect
  filenames (C stores their indices and copies `args[i]` afterwards; the
  strings are stored directly here). -/
def new_cmd_scan : List String → Bool → Char →
    Except String (List String × List String × List String)
  | [], _, _ => Except.ok ([], [], [])
  | arg :: rest, adj, last_symbol =>
    if isRedirectTok arg then
      if rest = [] ∨ adj then Except.error arg
      else new_cmd_scan rest true (charAt arg 0)
    else
      match new_cmd_scan rest false last_symbol with
      | Except.error e => Except.error e
      | Except.ok (as, ins, outs) =>
        if last_symbol ≠ nulChar then
          if last_symbol = '<' then Except.ok (as, arg :: ins, outs)
          else Except.ok (as, ins, arg :: outs)
        else Except.ok (arg :: as, ins, outs)

/-- minshell.c `new_cmd`: build a `Cmd` from one pipe-free token segment, or
fail with the offending token (C returns `NULL` and sets `*err`). -/
def new_cmd (args : List String) : Except String Cmd :=
  match new_cmd_scan args true nulChar with
  | Except.error e => Except.error e
  | Except.ok (as, ins, outs) => Except.ok ⟨as, ins, outs⟩

/-- The loop of `parse` (minshell.c lines 231-253): `seg` is the current
segment `args[last_cmd...i)`; at each pipe token the segment must be
non-empty (else `PARSE_ERR("|")`) and is built with `new_cmd`; the trailing
segment after the last pipe must be non-empty (else `PARSE_ERR("|")`). -/
def parse_scan : List String → List String → Except String (List Cmd)
  | [], seg =>
    if seg = [] then Except.error "|"
    else
      match new_cmd seg with
      | Except.error e => Except.error e
      | Except.ok c => Except.ok [c]
  | arg :: rest, seg =>
    if isPipeTok arg then
      if seg = [] then Except.error "|"
      else
        match new_cmd seg with
        | Except.error e => Except.error e
        | Except.ok c =>
          match parse_scan rest [] with
          | Except.error e => Except.error e
          | Except.ok cs => Except.ok (c :: cs)
    else parse_scan rest (seg ++ [arg])

/-- minshell.c `parse`: split the token list into commands at pipe tokens.
On a syntax error the error carries the offending token; an empty token list
is C's `*args == NULL` case, which returns 0 with no message (modelled as an
error with an empty token, since `main` executes nothing either way).
(C stores the segment length in a `char`; lines carry at most 63 tokens, so
the value always fits.) -/
def parse (args : List String) : Except String (List Cmd) :=
  match args with
  | [] => Except.error ""
  | _ :: _ => parse_scan args []

/-- The number of slots of `main`'s 32-element `cmds` array that `parse`
writes (one write per successful `new_cmd`, including on lines whose parse
later fails); mirrors the control flow of `parse_scan`. -/
def cmds_written : List String → List String → Nat
  | [], seg =>
    if seg = [] then 0
    else
      match new_cmd seg with
      | Except.error _ => 0
      | Except.ok _ => 1
  | arg :: rest, seg =>
    if isPipeTok arg then
      if seg = [] then 0
      else
        match new_cmd seg with
        | Except.error _ => 0
        | Except.ok _ => 1 + cmds_written rest []
    else cmds_written rest (seg ++ [arg])

/-! ## Built-in cd (cmd_cd) -/

/-- Outcome of the built-in `cd` (minshell.c `cmd_cd`).  `chdir` is called
exactly in the `success` and `chdirFail` outcomes; in the latter the working
directory is unchanged and the error is reported with the attempted path.
`tooManyArgs`, `homeUnset` and `tildeUnsupported` fail before any directory
change is attempted. -/
inductive CdOutcome
  | success (dir : String)
  | chdirFail (dir : String)
  | tooManyArgs
  | homeUnset
  | tildeUnsupported
deriving DecidableEq, Repr

/-- minshell.c `cmd_cd` lines 431-449: tilde handling (`path[0] == '~'`,
`path[1] == '\0'`, `getenv("HOME")`) followed by the `chdir` attempt.
`home` is the value of `HOME` (none when unset); `chdirOk p` tells whether
`chdir(p)` succeeds. -/
def cd_go (path : String) (home : Option String) (chdirOk : String → Bool) : CdOutcome :=
  if charAt path 0 = '~' then
    if charAt path 1 = nulChar then
      match home with
      | none => CdOutcome.homeUnset
      | some h => if chdirOk h then CdOutcome.success h else CdOutcome.chdirFail h
    else CdOutcome.tildeUnsupported
  else if chdirOk path then CdOutcome.success path else CdOutcome.chdirFail path

/-- minshell.c `cmd_cd`: `args` is the command's argument list (first entry
is the `cd` marker token).  `cmd->args[1] == NULL` (no argument) makes the
path `"~"`; otherwise `cmd->argn > 2` (two or more arguments) fails with
"too many arguments" before any tilde handling or directory change. -/
def cmd_cd (args : List String) (home : Option String) (chdirOk : String → Bool) : CdOutcome :=
  match args.get? 1 with
  | none => cd_go "~" home chdirOk
  | some p =>
    if args.length > 2 then CdOutcome.tooManyArgs
    else cd_go p home chdirOk

/-- The return value of `cmd_cd` as a `CMD_*` code. -/
def cd_status : CdOutcome → Nat
  | CdOutcome.success _ => CMD_SUCCESS
  | _ => CMD_FAILURE

/-! ## Executor (spawn, exec, exec_pipe, main dispatch) -/

/-- What `spawn` decides to do from `arg0 = cmd->args[0]` (minshell.c lines
275-278): custom tokens are preceded by a newline; `arg0[1] == T_EXIT`
runs the built-in `exit`, `arg0[1] == T_CD` runs the built-in `cd`, and
anything else falls through to `fork`/`execvp`. -/
inductive SpawnKind
  | runExit
  | runCd
  | forkChild
deriving DecidableEq, Repr

/-- The branch taken by `spawn` on a command whose first argument is
`arg0`. -/
def spawn_kind (arg0 : String) : SpawnKind :=
  if charAt arg0 0 = '\n' then
    if charAt arg0 1 = 'e' then SpawnKind.runExit
    else if charAt arg0 1 = 'c' then SpawnKind.runCd
    else SpawnKind.forkChild
  else SpawnKind.forkChild

/-- Observable action of one `spawn` call: fork an external command's child
process, run `cd` inside the interpreter's own process (the interpreter's
working directory may change), or hit the built-in `exit`. -/
inductive StageAction
  | forkExec (cmd : Cmd)
  | cdInParent (outcome : CdOutcome)
  | exitBuiltin
deriving DecidableEq, Repr

/-- minshell.c `spawn`: the action performed and the returned `CMD_*` code.
`cmd_exit` returns `CMD_EXIT`; `cmd_cd` returns its own status; a fork
returns `CMD_SUCCESS` in the parent (fork failure is outside the model). -/
def run_stage (cmd : Cmd) (home : Option String) (chdirOk : String → Bool) :
    StageAction × Nat :=
  match spawn_kind (cmd.args.headD "") with
  | SpawnKind.runExit => (StageAction.exitBuiltin, CMD_EXIT)
  | SpawnKind.runCd =>
    let o := cmd_cd cmd.args home chdirOk
    (StageAction.cdInParent o, cd_status o)
  | SpawnKind.forkChild => (StageAction.forkExec cmd, CMD_SUCCESS)

/-- The reaping loop `while (wait(&status) > 0);` of `exec` and `exec_pipe`
(minshell.c lines 348 and 390): `status` starts at 0 and is overwritten by
each successfully reaped child's exit status, in reap order; a failing
`wait` (no children left) leaves `status` untouched.  The result is the
value of `status` after every child has been reaped. -/
def wait_loop (reaped : List Nat) : Nat := reaped.foldl (fun _ s => s) 0

/-- The spawning loop of `exec_pipe` (minshell.c lines 367-388): spawn every
stage in order, stopping immediately (before the remaining stages) when a
`spawn` call returns `CMD_EXIT`.  Returns the actions performed and whether
`CMD_EXIT` was propagated.  Pipe plumbing between stages carries no
information observable at this level. -/
def exec_pipe_spawn (home : Option String) (chdirOk : String → Bool) :
    List Cmd → List StageAction × Bool
  | [] => ([], false)
  | c :: rest =>
    let ar := run_stage c home chdirOk
    if ar.2 = CMD_EXIT then ([ar.1], true)
    else
      let r := exec_pipe_spawn home chdirOk rest
      (ar.1 :: r.1, r.2)

/-- minshell.c `exec_pipe`: spawn all stages, then run the reaping loop and
turn the final `status` into `CMD_SUCCESS`/`CMD_FAILURE`; `CMD_EXIT` from
any `spawn` is propagated immediately.  `reaped` lists the exit statuses of
the spawned descendants in the order `wait` reaps them. -/
def exec_pipe_run (cmds : List Cmd) (home : Option String) (chdirOk : String → Bool)
    (reaped : List Nat) : Nat × List StageAction :=
  let s := exec_pipe_spawn home chdirOk cmds
  if s.2 then (CMD_EXIT, s.1)
  else (if wait_loop reaped = 0 then CMD_SUCCESS else CMD_FAILURE, s.1)

/-- minshell.c `exec`: spawn the single command; on `CMD_EXIT` return
immediately, otherwise reap every child and turn the final `status` into
`CMD_SUCCESS`/`CMD_FAILURE`. -/
def exec1 (cmd : Cmd) (home : Option String) (chdirOk : String → Bool)
    (reaped : List Nat) : Nat × List StageAction :=
  let ar := run_stage cmd home chdirOk
  if ar.2 = CMD_EXIT then (CMD_EXIT, [ar.1])
  else (if wait_loop reaped = 0 then CMD_SUCCESS else CMD_FAILURE, [ar.1])

/-- Outcome of one iteration of `main`'s loop for one token list: either the
parse failed (or produced no command) and nothing is executed, or the line
ran with a `CMD_*` result and a list of stage actions. -/
inductive LineOutcome
  | noExec
  | ran (result : Nat) (actions : List StageAction)
deriving DecidableEq, Repr

/-- minshell.c `main` lines 93-98: execute one parsed line.
`if (parse(args, cmds, &cmdn) && cmdn > 0)` guards execution; with more than
one command the line runs through `exec_pipe`, otherwise through `exec`. -/
def run_line (args : List String) (home : Option String) (chdirOk : String → Bool)
    (reaped : List Nat) : LineOutcome :=
  match parse args with
  | Except.error _ => LineOutcome.noExec
  | Except.ok cmds =>
    match cmds with
    | [] => LineOutcome.noExec
    | [c] =>
      let r := exec1 c home chdirOk reaped
      LineOutcome.ran r.1 r.2
    | c :: c2 :: rest =>
      let r := exec_pipe_run (c :: c2 :: rest) home chdirOk reaped
      LineOutcome.ran r.1 r.2

/-! ## Spec-side renderings and derived notions used by the claims -/

/-- Rendering of the spec's words for the argument list of a segment (design
§4.2 step 3): "the prefix of the segment up to (excluding) the first
redirect symbol; if no redirect symbol exists the argument list is the whole
segment". -/
def spec_args_before_redirect (seg : List String) : List String :=
  seg.takeWhile (fun a => !(isRedirectTok a))

/-- Rendering of the spec's words for the filename lists of a segment
(design §4.2 step 3): "every word token following a redirect symbol, up to
the next redirect symbol or end of segment, is appended to that symbol's
direction's filename list — the latest symbol determines which list receives
subsequent words".  The first component is the input list, the second the
output list; `d` is the direction of the latest symbol (none before the
first symbol). -/
def spec_file_lists : Option Char → List String → List String × List String
  | _, [] => ([], [])
  | d, a :: rest =>
    if a = "<" then spec_file_lists (some '<') rest
    else if a = ">" then spec_file_lists (some '>') rest
    else
      match d with
      | some sym =>
        let p := spec_file_lists d rest
        if sym = '<' then (a :: p.1, p.2) else (p.1, a :: p.2)
      | none => spec_file_lists none rest

/-- The direction encoded by C's `last_symbol` character. -/
def dirOf (c : Char) : Option Char := if c = nulChar then none else some c

/-- The first token of a segment at which the scan of `new_cmd` fails: a
redirect symbol that is the last element, or at index 0, or immediately
after another redirect symbol (`adj` plays the same role as in
`new_cmd_scan`). -/
def first_bad : List String → Bool → Option String
  | [], _ => none
  | a :: rest, adj =>
    if isRedirectTok a then
      if rest = [] ∨ adj then some a
      else first_bad rest true
    else first_bad rest false

/-- The token a failing parse cites, rendered as the left-to-right rule of
`parse`: walking the token list and accumulating the current segment, an
empty segment at a pipe token cites `|`; a segment whose scan has an
offending redirect symbol (`first_bad`) cites that symbol; an empty trailing
segment (a trailing pipe or an empty line) cites `|`; `none` when the line
parses.  So the cited token is `|` unless an earlier segment error is
reached first, in which case that segment's first offending redirect token
is cited. -/
def cited_tok : List String → List String → Option String
  | [], seg =>
    if seg = [] then some "|"
    else first_bad seg true
  | arg :: rest, seg =>
    if isPipeTok arg then
      if seg = [] then some "|"
      else
        match first_bad seg true with
        | some e => some e
        | none => cited_tok rest []
    else cited_tok rest (seg ++ [arg])

/-- A pipe token is the first token of the line. -/
def pipeFirst (args : List String) : Prop := args.head? = some "|"

/-- A pipe token is the last token of the line. -/
def pipeLast (args : List String) : Prop := args.getLast? = some "|"

/-- Two adjacent pipe tokens occur in the line. -/
def pipeAdjacent (args : List String) : Prop :=
  ∃ l r, args = l ++ "|" :: "|" :: r

/-! ## Helper lemmas -/

theorem isRedirectTok_iff {a : String} : isRedirectTok a = true ↔ a = "<" ∨ a = ">" := by
  simp [isRedirectTok]

theorem spec_args_cons_redirect {a : String} (rest : List String)
    (h : isRedirectTok a = true) :
    spec_args_before_redirect (a :: rest) = [] := by
  simp [spec_args_before_redirect, List.takeWhile_cons, h]

theorem spec_args_cons_word {a : String} (rest : List String)
    (h : ¬isRedirectTok a = true) :
    spec_args_before_redirect (a :: rest) = a :: spec_args_before_redirect rest := by
  simp [spec_args_before_redirect, List.takeWhile_cons, h]

theorem spec_file_lists_cons_lt (d : Option Char) (rest : List String) :
    spec_file_lists d ("<" :: rest) = spec_file_lists (some '<') rest := rfl

theorem spec_file_lists_cons_gt (d : Option Char) (rest : List String) :
    spec_file_lists d (">" :: rest) = spec_file_lists (some '>') rest := rfl

theorem spec_file_lists_cons_word_none {a : String} (rest : List String)
    (h1 : a ≠ "<") (h2 : a ≠ ">") :
    spec_file_lists none (a :: rest) = spec_file_lists none rest := by
  simp only [spec_file_lists, if_neg h1, if_neg h2]

theorem spec_file_lists_cons_word_lt {a : String} (rest : List String)
    (h1 : a ≠ "<") (h2 : a ≠ ">") :
    spec_file_lists (some '<') (a :: rest) =
      (a :: (spec_file_lists (some '<') rest).1, (spec_file_lists (some '<') rest).2) := by
  simp only [spec_file_lists, if_neg h1, if_neg h2, if_pos rfl, if_true]

theorem spec_file_lists_cons_word_gt {a : String} (rest : List String)
    (h1 : a ≠ "<") (h2 : a ≠ ">") :
    spec_file_lists (some '>') (a :: rest) =
      ((spec_file_lists (some '>') rest).1, a :: (spec_file_lists (some '>') rest).2) := by
  have hgl : ('>' : Char) ≠ '<' := by decide
  simp only [spec_file_lists, if_neg h1, if_neg h2, if_neg hgl]

/-- Success characterization of the `new_cmd` scan: when the scan of the
remaining elements succeeds, the collected triple is exactly what the spec's
description computes (argument prefix before the first redirect symbol;
filename lists driven by the latest redirect symbol's direction). -/
theorem new_cmd_scan_ok_char (l : List String) : ∀ (adj : Bool) (sym : Char),
    sym = nulChar ∨ sym = '<' ∨ sym = '>' →
    ∀ as ins outs, new_cmd_scan l adj sym = Except.ok (as, ins, outs) →
      as = (if sym = nulChar then spec_args_before_redirect l else []) ∧
      ins = (spec_file_lists (dirOf sym) l).1 ∧
      outs = (spec_file_lists (dirOf sym) l).2 := by
  have hlt : ('<' : Char) ≠ nulChar := by decide
  have hgt : ('>' : Char) ≠ nulChar := by decide
  have hgl : ('>' : Char) ≠ '<' := by decide
  have hdlt : dirOf '<' = some '<' := by decide
  have hdgt : dirOf '>' = some '>' := by decide
  have hdnul : dirOf nulChar = none := by decide
  induction l with
  | nil =>
    intro adj sym hsym as ins outs h
    simp only [new_cmd_scan, Except.ok.injEq, Prod.mk.injEq] at h
    obtain ⟨h1, h2, h3⟩ := h
    subst h1; subst h2; subst h3
    simp [spec_args_before_redirect, spec_file_lists]
  | cons a rest ih =>
    intro adj sym hsym as ins outs h
    by_cases hr : isRedirectTok a
    · rcases isRedirectTok_iff.mp hr with ha | ha <;> subst ha
      · by_cases hre : rest = [] ∨ adj
        · simp [new_cmd_scan, hr, hre] at h
        · have h' : new_cmd_scan rest true '<' = Except.ok (as, ins, outs) := by
            simpa [new_cmd_scan, hr, hre, charAt] using h
          obtain ⟨e1, e2, e3⟩ := ih true '<' (Or.inr (Or.inl rfl)) as ins outs h'
          rw [if_neg hlt] at e1
          rw [hdlt] at e2 e3
          refine ⟨?_, ?_, ?_⟩
          · rw [e1, spec_args_cons_redirect rest hr, ite_self]
          · rw [e2, spec_file_lists_cons_lt]
          · rw [e3, spec_file_lists_cons_lt]
      · by_cases hre : rest = [] ∨ adj
        · simp [new_cmd_scan, hr, hre] at h
        · have h' : new_cmd_scan rest true '>' = Except.ok (as, ins, outs) := by
            simpa [new_cmd_scan, hr, hre, charAt] using h
          obtain ⟨e1, e2, e3⟩ := ih true '>' (Or.inr (Or.inr rfl)) as ins outs h'
          rw [if_neg hgt] at e1
          rw [hdgt] at e2 e3
          refine ⟨?_, ?_, ?_⟩
          · rw [e1, spec_args_cons_redirect rest hr, ite_self]
          · rw [e2, spec_file_lists_cons_gt]
          · rw [e3, spec_file_lists_cons_gt]
    · have hane : a ≠ "<" ∧ a ≠ ">" := by
        constructor <;> intro hcon <;> exact hr (isRedirectTok_iff.mpr (by simp [hcon]))
      cases hsc : new_cmd_scan rest false sym with
      | error e =>
        simp [new_cmd_scan, hr, hsc] at h
      | ok t =>
        obtain ⟨as', ins', outs'⟩ := t
        obtain ⟨e1, e2, e3⟩ := ih false sym hsym as' ins' outs' hsc
        rcases hsym with hs | hs | hs <;> subst hs
        · simp only [new_cmd_scan, if_neg hr, hsc] at h
          rw [if_neg (by simp : ¬(nulChar ≠ nulChar))] at h
          injection h with h'
          simp only [Prod.mk.injEq] at h'
          obtain ⟨f1, f2, f3⟩ := h'
          subst f1; subst f2; subst f3
          rw [if_pos rfl] at e1
          rw [hdnul] at e2 e3
          refine ⟨?_, ?_, ?_⟩
          · rw [if_pos rfl, spec_args_cons_word rest hr, e1]
          · rw [e2, hdnul, spec_file_lists_cons_word_none rest hane.1 hane.2]
          · rw [e3, hdnul, spec_file_lists_cons_word_none rest hane.1 hane.2]
        · simp only [new_cmd_scan, if_neg hr, hsc] at h
          rw [if_pos hlt] at h
          rw [if_true] at h
          injection h with h'
          simp only [Prod.mk.injEq] at h'
          obtain ⟨f1, f2, f3⟩ := h'
          subst f1; subst f2; subst f3
          rw [if_neg hlt] at e1
          rw [hdlt] at e2 e3
          refine ⟨?_, ?_, ?_⟩
          · rw [if_neg hlt, e1]
          · rw [e2, hdlt, spec_file_lists_cons_word_lt rest hane.1 hane.2]
          · rw [e3, hdlt, spec_file_lists_cons_word_lt rest hane.1 hane.2]
        · simp only [new_cmd_scan, if_neg hr, hsc] at h
          rw [if_pos hgt] at h
          rw [if_neg hgl] at h
          injection h with h'
          simp only [Prod.mk.injEq] at h'
          obtain ⟨f1, f2, f3⟩ := h'
          subst f1; subst f2; subst f3
          rw [if_neg hgt] at e1
          rw [hdgt] at e2 e3
          refine ⟨?_, ?_, ?_⟩
          · rw [if_neg hgt, e1]
          · rw [e2, hdgt, spec_file_lists_cons_word_gt rest hane.1 hane.2]
          · rw [e3, hdgt, spec_file_lists_cons_word_gt rest hane.1 hane.2]

/-- On success `new_cmd` computes exactly what the spec describes. -/
theorem new_cmd_ok_char {seg : List String} {cmd : Cmd} (h : new_cmd seg = Except.ok cmd) :
    cmd.args = spec_args_before_redirect seg ∧
    cmd.files_in = (spec_file_lists none seg).1 ∧
    cmd.files_out = (spec_file_lists none seg).2 := by
  unfold new_cmd at h
  cases hsc : new_cmd_scan seg true nulChar with
  | error e => rw [hsc] at h; cases h
  | ok t =>
    obtain ⟨as, ins, outs⟩ := t
    rw [hsc] at h
    injection h with h'
    subst h'
    have := new_cmd_scan_ok_char seg true nulChar (Or.inl rfl) as ins outs hsc
    simpa [dirOf] using this

/-- The `new_cmd` scan fails exactly when `first_bad` finds an offending
token, and it reports exactly that token. -/
theorem new_cmd_scan_error_iff (l : List String) : ∀ (adj : Bool) (sym : Char) (e : String),
    new_cmd_scan l adj sym = Except.error e ↔ first_bad l adj = some e := by
  induction l with
  | nil => intro adj sym e; simp [new_cmd_scan, first_bad]
  | cons a rest ih =>
    intro adj sym e
    by_cases hr : isRedirectTok a
    · by_cases hre : rest = [] ∨ adj
      · simp [new_cmd_scan, first_bad, hr, hre]
      · simp only [new_cmd_scan, first_bad, hr, if_true, hre, if_false]
        exact ih true (charAt a 0) e
    · have hstep : new_cmd_scan (a :: rest) adj sym =
          match new_cmd_scan rest false sym with
          | Except.error e => Except.error e
          | Except.ok (as, ins, outs) =>
            if sym ≠ nulChar then
              if sym = '<' then Except.ok (as, a :: ins, outs)
              else Except.ok (as, ins, a :: outs)
            else Except.ok (a :: as, ins, outs) := by
        simp only [new_cmd_scan, if_neg hr]
      have hfstep : first_bad (a :: rest) adj = first_bad rest false := by
        simp only [first_bad, if_neg hr]
      rw [hstep, hfstep]
      cases hsc : new_cmd_scan rest false sym with
      | error e' =>
        show Except.error e' = Except.error e ↔ first_bad rest false = some e
        constructor
        · intro hh
          injection hh with hh'
          subst hh'
          exact (ih false sym e').mp hsc
        · intro hh
          have h2 := (ih false sym e).mpr hh
          rw [hsc] at h2
          injection h2 with h2'
          rw [h2']
      | ok t =>
        obtain ⟨as, ins, outs⟩ := t
        constructor
        · intro hh
          exfalso
          have hh' : (if sym ≠ nulChar then
              if sym = '<' then Except.ok (as, a :: ins, outs)
              else Except.ok (as, ins, a :: outs)
            else Except.ok (a :: as, ins, outs) : Except String _) = Except.error e := hh
          by_cases h1 : sym ≠ nulChar
          · rw [if_pos h1] at hh'
            by_cases h2 : sym = '<'
            · rw [if_pos h2] at hh'; cases hh'
            · rw [if_neg h2] at hh'; cases hh'
          · rw [if_neg h1] at hh'; cases hh'
        · intro hh
          have h2 := (ih false sym e).mpr hh
          rw [hsc] at h2
          cases h2

/-- Only redirect tokens are reported by `first_bad`. -/
theorem first_bad_redirect (l : List String) : ∀ (adj : Bool) (e : String),
    first_bad l adj = some e → isRedirectTok e = true := by
  induction l with
  | nil => intro adj e h; simp [first_bad] at h
  | cons a rest ih =>
    intro adj e h
    by_cases hr : isRedirectTok a
    · by_cases hre : rest = [] ∨ adj
      · simp only [first_bad, hr, if_true, hre, Option.some.injEq] at h
        subst h; exact hr
      · simp only [first_bad, hr, if_true, hre, if_false] at h
        exact ih true e h
    · simp only [first_bad, hr, if_false] at h
      exact ih false e h

/-- A segment whose final token is a redirect symbol has an offending
token. -/
theorem first_bad_isSome_of_final (pre : List String) : ∀ (s : String) (adj : Bool),
    isRedirectTok s = true → (first_bad (pre ++ [s]) adj).isSome := by
  induction pre with
  | nil =>
    intro s adj hs
    simp [first_bad, hs]
  | cons p pre ih =>
    intro s adj hs
    by_cases hp : isRedirectTok p
    · cases adj with
      | true => simp [first_bad, hp]
      | false =>
        have hne : pre ++ [s] ≠ [] := by simp
        simpa [first_bad, hp, hne] using ih s true hs
    · simpa [first_bad, hp] using ih s false hs

/-- A segment with two adjacent redirect symbols has an offending token. -/
theorem first_bad_isSome_of_adjacent (pre : List String) :
    ∀ (s t : String) (r : List String) (adj : Bool),
    isRedirectTok s = true → isRedirectTok t = true →
    (first_bad (pre ++ s :: t :: r) adj).isSome := by
  induction pre with
  | nil =>
    intro s t r adj hs ht
    cases adj with
    | true => simp [first_bad, hs]
    | false => simp [first_bad, hs, ht]
  | cons p pre ih =>
    intro s t r adj hs ht
    by_cases hp : isRedirectTok p
    · cases adj with
      | true => simp [first_bad, hp]
      | false =>
        have hne : pre ++ s :: t :: r ≠ [] := by simp
        simpa [first_bad, hp, hne] using ih s t r true hs ht
    · simpa [first_bad, hp] using ih s t r false hs ht

theorem parse_scan_nil_empty : parse_scan [] [] = Except.error "|" := rfl

theorem parse_scan_nil_err (seg : List String) (hseg : seg ≠ []) {e : String}
    (hnc : new_cmd seg = Except.error e) : parse_scan [] seg = Except.error e := by
  simp only [parse_scan, if_neg hseg, hnc]

theorem parse_scan_nil_ok (seg : List String) (hseg : seg ≠ []) {c : Cmd}
    (hnc : new_cmd seg = Except.ok c) : parse_scan [] seg = Except.ok [c] := by
  simp only [parse_scan, if_neg hseg, hnc]

theorem parse_scan_cons_pipe_empty {a : String} (rest seg : List String)
    (hp : isPipeTok a = true) (hseg : seg = []) :
    parse_scan (a :: rest) seg = Except.error "|" := by
  simp only [parse_scan, if_pos hp, if_pos hseg]

theorem parse_scan_cons_pipe_err {a : String} (rest seg : List String)
    (hp : isPipeTok a = true) (hseg : seg ≠ []) {e : String}
    (hnc : new_cmd seg = Except.error e) :
    parse_scan (a :: rest) seg = Except.error e := by
  simp only [parse_scan, if_pos hp, if_neg hseg, hnc]

theorem parse_scan_cons_pipe_ok_err {a : String} (rest seg : List String)
    (hp : isPipeTok a = true) (hseg : seg ≠ []) {c : Cmd}
    (hnc : new_cmd seg = Except.ok c) {e : String}
    (hps : parse_scan rest [] = Except.error e) :
    parse_scan (a :: rest) seg = Except.error e := by
  simp only [parse_scan, if_pos hp, if_neg hseg, hnc, hps]

theorem parse_scan_cons_pipe_ok_ok {a : String} (rest seg : List String)
    (hp : isPipeTok a = true) (hseg : seg ≠ []) {c : Cmd}
    (hnc : new_cmd seg = Except.ok c) {cs : List Cmd}
    (hps : parse_scan rest [] = Except.ok cs) :
    parse_scan (a :: rest) seg = Except.ok (c :: cs) := by
  simp only [parse_scan, if_pos hp, if_neg hseg, hnc, hps]

theorem parse_scan_cons_word {a : String} (rest seg : List String)
    (hp : ¬isPipeTok a = true) :
    parse_scan (a :: rest) seg = parse_scan rest (seg ++ [a]) := by
  simp only [parse_scan, if_neg hp]

/-- `new_cmd` fails exactly when the segment has an offending redirect
symbol, and it cites the first one met by the scan. -/
theorem new_cmd_error_iff (seg : List String) (e : String) :
    new_cmd seg = Except.error e ↔ first_bad seg true = some e := by
  unfold new_cmd
  cases hsc : new_cmd_scan seg true nulChar with
  | error e2 =>
    have h1 := (new_cmd_scan_error_iff seg true nulChar e2).mp hsc
    constructor
    · intro h
      have h' : Except.error e2 = Except.error e := h
      injection h' with h2
      subst h2
      exact h1
    · intro h
      have h3 := (new_cmd_scan_error_iff seg true nulChar e).mpr h
      rw [hsc] at h3
      injection h3 with h4
      show Except.error e2 = Except.error e
      rw [h4]
  | ok t =>
    obtain ⟨as, ins, outs⟩ := t
    constructor
    · intro h
      have h' : Except.ok (Cmd.mk as ins outs) = Except.error e := h
      cases h'
    · intro h
      have h3 := (new_cmd_scan_error_iff seg true nulChar e).mpr h
      rw [hsc] at h3
      cases h3

/-- A segment that builds successfully has no offending redirect symbol. -/
theorem first_bad_none_of_new_cmd_ok {seg : List String} {c : Cmd}
    (h : new_cmd seg = Except.ok c) : first_bad seg true = none := by
  cases hfb : first_bad seg true with
  | none => rfl
  | some x =>
    have h2 := (new_cmd_error_iff seg x).mpr hfb
    rw [h] at h2
    cases h2

theorem cited_tok_nil_seg (seg : List String) (hseg : seg ≠ []) :
    cited_tok [] seg = first_bad seg true := by
  simp only [cited_tok, if_neg hseg]

theorem cited_tok_cons_pipe_empty {a : String} (rest seg : List String)
    (hp : isPipeTok a = true) (hseg : seg = []) :
    cited_tok (a :: rest) seg = some "|" := by
  simp only [cited_tok, if_pos hp, if_pos hseg]

theorem cited_tok_cons_pipe_bad {a : String} (rest seg : List String)
    (hp : isPipeTok a = true) (hseg : seg ≠ []) {e : String}
    (hfb : first_bad seg true = some e) :
    cited_tok (a :: rest) seg = some e := by
  simp only [cited_tok, if_pos hp, if_neg hseg, hfb]

theorem cited_tok_cons_pipe_good {a : String} (rest seg : List String)
    (hp : isPipeTok a = true) (hseg : seg ≠ [])
    (hfb : first_bad seg true = none) :
    cited_tok (a :: rest) seg = cited_tok rest [] := by
  simp only [cited_tok, if_pos hp, if_neg hseg, hfb]

theorem cited_tok_cons_word {a : String} (rest seg : List String)
    (hp : ¬isPipeTok a = true) :
    cited_tok (a :: rest) seg = cited_tok rest (seg ++ [a]) := by
  simp only [cited_tok, if_neg hp]

/-- The citation rule of `parse`: the scan fails exactly when `cited_tok`
names a token, and the reported token is exactly that one — `|` for an empty
or missing segment at a pipe boundary, otherwise the first failing segment's
first offending redirect symbol. -/
theorem parse_scan_error_iff_cited (l : List String) : ∀ (seg : List String) (e : String),
    parse_scan l seg = Except.error e ↔ cited_tok l seg = some e := by
  induction l with
  | nil =>
    intro seg e
    by_cases hseg : seg = []
    · subst hseg
      simp [parse_scan, cited_tok]
    · cases hnc : new_cmd seg with
      | error e2 =>
        rw [parse_scan_nil_err seg hseg hnc, cited_tok_nil_seg seg hseg,
          (new_cmd_error_iff seg e2).mp hnc]
        simp
      | ok c =>
        rw [parse_scan_nil_ok seg hseg hnc, cited_tok_nil_seg seg hseg,
          first_bad_none_of_new_cmd_ok hnc]
        constructor
        · intro hcon; cases hcon
        · intro hcon; cases hcon
  | cons a rest ih =>
    intro seg e
    by_cases hp : isPipeTok a = true
    · by_cases hseg : seg = []
      · rw [parse_scan_cons_pipe_empty rest seg hp hseg,
          cited_tok_cons_pipe_empty rest seg hp hseg]
        simp
      · cases hnc : new_cmd seg with
        | error e2 =>
          rw [parse_scan_cons_pipe_err rest seg hp hseg hnc,
            cited_tok_cons_pipe_bad rest seg hp hseg ((new_cmd_error_iff seg e2).mp hnc)]
          simp
        | ok c =>
          cases hps : parse_scan rest [] with
          | error e2 =>
            rw [parse_scan_cons_pipe_ok_err rest seg hp hseg hnc hps,
              cited_tok_cons_pipe_good rest seg hp hseg (first_bad_none_of_new_cmd_ok hnc),
              ← ih [] e, hps]
          | ok cs =>
            rw [parse_scan_cons_pipe_ok_ok rest seg hp hseg hnc hps,
              cited_tok_cons_pipe_good rest seg hp hseg (first_bad_none_of_new_cmd_ok hnc)]
            constructor
            · intro hcon; cases hcon
            · intro hcon
              have h2 := (ih [] e).mpr hcon
              rw [hps] at h2
              cases h2
    · rw [parse_scan_cons_word rest seg hp, cited_tok_cons_word rest seg hp]
      exact ih (seg ++ [a]) e

/-- A cited token is either `|` or a redirect symbol. -/
theorem cited_tok_pipe_or_redirect (l : List String) : ∀ (seg : List String) (e : String),
    cited_tok l seg = some e → e = "|" ∨ isRedirectTok e = true := by
  induction l with
  | nil =>
    intro seg e h
    by_cases hseg : seg = []
    · subst hseg
      have h' : (some "|" : Option String) = some e := h
      injection h' with h2
      exact Or.inl h2.symm
    · rw [cited_tok_nil_seg seg hseg] at h
      exact Or.inr (first_bad_redirect seg true e h)
  | cons a rest ih =>
    intro seg e h
    by_cases hp : isPipeTok a = true
    · by_cases hseg : seg = []
      · rw [cited_tok_cons_pipe_empty rest seg hp hseg] at h
        injection h with h2
        exact Or.inl h2.symm
      · cases hfb : first_bad seg true with
        | some x =>
          rw [cited_tok_cons_pipe_bad rest seg hp hseg hfb] at h
          injection h with h2
          subst h2
          exact Or.inr (first_bad_redirect seg true x hfb)
        | none =>
          rw [cited_tok_cons_pipe_good rest seg hp hseg hfb] at h
          exact ih [] e h
    · rw [cited_tok_cons_word rest seg hp] at h
      exact ih (seg ++ [a]) e h

/-- `parse` on a non-empty token list is the segment scan started with an
empty current segment. -/
theorem parse_ne_nil (args : List String) (h : args ≠ []) :
    parse args = parse_scan args [] := by
  cases args with
  | nil => exact absurd rfl h
  | cons a rest => rfl

/-- A trailing pipe token makes `parse_scan` fail, whatever error is hit
first. -/
theorem parse_scan_error_of_pipeLast (l : List String) : ∀ seg : List String,
    l.getLast? = some "|" → ∃ e, parse_scan l seg = Except.error e := by
  induction l with
  | nil => intro seg h; simp at h
  | cons a rest ih =>
    intro seg h
    cases rest with
    | nil =>
      have ha : a = "|" := by simpa using h
      subst ha
      have hp : isPipeTok "|" = true := rfl
      by_cases hseg : seg = []
      · exact ⟨"|", parse_scan_cons_pipe_empty [] seg hp hseg⟩
      · cases hnc : new_cmd seg with
        | error e => exact ⟨e, parse_scan_cons_pipe_err [] seg hp hseg hnc⟩
        | ok c =>
          exact ⟨"|", parse_scan_cons_pipe_ok_err [] seg hp hseg hnc parse_scan_nil_empty⟩
    | cons b rest2 =>
      have h' : (b :: rest2).getLast? = some "|" := by
        rw [List.getLast?_cons_cons] at h; exact h
      by_cases hp : isPipeTok a = true
      · by_cases hseg : seg = []
        · exact ⟨"|", parse_scan_cons_pipe_empty _ seg hp hseg⟩
        · cases hnc : new_cmd seg with
          | error e => exact ⟨e, parse_scan_cons_pipe_err _ seg hp hseg hnc⟩
          | ok c =>
            obtain ⟨e, he⟩ := ih [] h'
            exact ⟨e, parse_scan_cons_pipe_ok_err _ seg hp hseg hnc he⟩
      · obtain ⟨e, he⟩ := ih (seg ++ [a]) h'
        exact ⟨e, (parse_scan_cons_word _ seg hp).trans he⟩

/-- Two adjacent pipe tokens make `parse_scan` fail, whatever error is hit
first. -/
theorem parse_scan_error_of_adjacent (pre : List String) : ∀ (r seg : List String),
    ∃ e, parse_scan (pre ++ "|" :: "|" :: r) seg = Except.error e := by
  have hp : isPipeTok "|" = true := rfl
  induction pre with
  | nil =>
    intro r seg
    by_cases hseg : seg = []
    · exact ⟨"|", parse_scan_cons_pipe_empty _ seg hp hseg⟩
    · cases hnc : new_cmd seg with
      | error e => exact ⟨e, parse_scan_cons_pipe_err _ seg hp hseg hnc⟩
      | ok c =>
        refine ⟨"|", parse_scan_cons_pipe_ok_err _ seg hp hseg hnc ?_⟩
        exact parse_scan_cons_pipe_empty r [] hp rfl
  | cons p pre ih =>
    intro r seg
    by_cases hpp : isPipeTok p = true
    · by_cases hseg : seg = []
      · exact ⟨"|", parse_scan_cons_pipe_empty _ seg hpp hseg⟩
      · cases hnc : new_cmd seg with
        | error e => exact ⟨e, parse_scan_cons_pipe_err _ seg hpp hseg hnc⟩
        | ok c =>
          obtain ⟨e, he⟩ := ih r []
          exact ⟨e, parse_scan_cons_pipe_ok_err _ seg hpp hseg hnc he⟩
    · obtain ⟨e, he⟩ := ih r (seg ++ [p])
      exact ⟨e, (parse_scan_cons_word _ seg hpp).trans he⟩

/-- Each parsed command consumes at least one token, and consecutive
commands are separated by a pipe token. -/
theorem parse_scan_length (l : List String) : ∀ (seg : List String) (cs : List Cmd),
    parse_scan l seg = Except.ok cs →
    2 * cs.length ≤ l.length + (if seg = [] then 0 else 1) + 1 := by
  induction l with
  | nil =>
    intro seg cs h
    by_cases hseg : seg = []
    · subst hseg
      rw [parse_scan_nil_empty] at h
      cases h
    · cases hnc : new_cmd seg with
      | error e => rw [parse_scan_nil_err seg hseg hnc] at h; cases h
      | ok c =>
        rw [parse_scan_nil_ok seg hseg hnc] at h
        injection h with h'
        subst h'
        rw [if_neg hseg]
        simp
  | cons a rest ih =>
    intro seg cs h
    by_cases hp : isPipeTok a = true
    · by_cases hseg : seg = []
      · rw [parse_scan_cons_pipe_empty rest seg hp hseg] at h; cases h
      · cases hnc : new_cmd seg with
        | error e => rw [parse_scan_cons_pipe_err rest seg hp hseg hnc] at h; cases h
        | ok c =>
          cases hps : parse_scan rest [] with
          | error e =>
            rw [parse_scan_cons_pipe_ok_err rest seg hp hseg hnc hps] at h; cases h
          | ok cs' =>
            rw [parse_scan_cons_pipe_ok_ok rest seg hp hseg hnc hps] at h
            injection h with h'
            subst h'
            have hb := ih [] cs' hps
            rw [if_pos rfl] at hb
            rw [if_neg hseg]
            simp only [List.length_cons]
            omega
    · rw [parse_scan_cons_word rest seg hp] at h
      have hb := ih (seg ++ [a]) cs h
      have hne : seg ++ [a] ≠ [] := by simp
      rw [if_neg hne] at hb
      simp only [List.length_cons]
      by_cases hseg : seg = []
      · rw [if_pos hseg]; omega
      · rw [if_neg hseg]; omega

/-- Bound on the number of array slots `parse` writes, also on lines whose
parse eventually fails. -/
theorem cmds_written_bound (l : List String) : ∀ seg : List String,
    2 * cmds_written l seg ≤ l.length + (if seg = [] then 0 else 1) + 1 := by
  induction l with
  | nil =>
    intro seg
    by_cases hseg : seg = []
    · simp [cmds_written, hseg]
    · rw [if_neg hseg]
      have hle : cmds_written [] seg ≤ 1 := by
        simp only [cmds_written, if_neg hseg]
        cases new_cmd seg <;> simp
      omega
  | cons a rest ih =>
    intro seg
    by_cases hp : isPipeTok a = true
    · by_cases hseg : seg = []
      · simp [cmds_written, hp, hseg]
      · simp only [cmds_written, if_pos hp, if_neg hseg]
        cases hnc : new_cmd seg with
        | error e =>
          simp
        | ok c =>
          have hb := ih []
          rw [if_pos rfl] at hb
          show 2 * (1 + cmds_written rest []) ≤ (a :: rest).length + 1 + 1
          simp only [List.length_cons]
          omega
    · simp only [cmds_written, if_neg hp]
      have hb := ih (seg ++ [a])
      have hne : seg ++ [a] ≠ [] := by simp
      rw [if_neg hne] at hb
      simp only [List.length_cons]
      by_cases hseg : seg = []
      · rw [if_pos hseg]; omega
      · rw [if_neg hseg]; omega

/-- The reaping loop keeps only the status of the last reaped child (0 when
nothing was reaped). -/
theorem wait_loop_eq_getLastD (reaped : List Nat) : wait_loop reaped = reaped.getLastD 0 := by
  have key : ∀ (l : List Nat) (a : Nat), l.foldl (fun _ s => s) a = l.getLastD a := by
    intro l
    induction l with
    | nil => intro a; rfl
    | cons x xs ih =>
      intro a
      simp only [List.foldl_cons, List.getLastD_cons]
      exact ih x
  exact key reaped 0

theorem cd_status_ne_exit (o : CdOutcome) : cd_status o ≠ CMD_EXIT := by
  cases o <;> simp [cd_status, CMD_SUCCESS, CMD_FAILURE, CMD_EXIT]

theorem run_stage_cd (cmd : Cmd) (home : Option String) (chdirOk : String → Bool)
    (h : spawn_kind (cmd.args.headD "") = SpawnKind.runCd) :
    run_stage cmd home chdirOk =
      (StageAction.cdInParent (cmd_cd cmd.args home chdirOk),
       cd_status (cmd_cd cmd.args home chdirOk)) := by
  simp only [run_stage, h]

theorem run_stage_exit (cmd : Cmd) (home : Option String) (chdirOk : String → Bool)
    (h : spawn_kind (cmd.args.headD "") = SpawnKind.runExit) :
    run_stage cmd home chdirOk = (StageAction.exitBuiltin, CMD_EXIT) := by
  simp only [run_stage, h]

theorem exec_pipe_spawn_nil (home : Option String) (chdirOk : String → Bool) :
    exec_pipe_spawn home chdirOk [] = ([], false) := rfl

theorem exec_pipe_spawn_cons_exit {c : Cmd} {home : Option String} {chdirOk : String → Bool}
    (rest : List Cmd) (h : (run_stage c home chdirOk).2 = CMD_EXIT) :
    exec_pipe_spawn home chdirOk (c :: rest) = ([(run_stage c home chdirOk).1], true) := by
  simp only [exec_pipe_spawn, if_pos h]

theorem exec_pipe_spawn_cons_cont {c : Cmd} {home : Option String} {chdirOk : String → Bool}
    (rest : List Cmd) (h : ¬(run_stage c home chdirOk).2 = CMD_EXIT) :
    exec_pipe_spawn home chdirOk (c :: rest) =
      ((run_stage c home chdirOk).1 :: (exec_pipe_spawn home chdirOk rest).1,
       (exec_pipe_spawn home chdirOk rest).2) := by
  simp only [exec_pipe_spawn, if_neg h]

/-- Spawning a pipeline whose prefix does not hit the built-in `exit`
continues through the remaining stages exactly as it would for them
alone. -/
theorem exec_pipe_spawn_append (home : Option String) (chdirOk : String → Bool)
    (pre post : List Cmd) (h : (exec_pipe_spawn home chdirOk pre).2 = false) :
    exec_pipe_spawn home chdirOk (pre ++ post) =
      ((exec_pipe_spawn home chdirOk pre).1 ++ (exec_pipe_spawn home chdirOk post).1,
       (exec_pipe_spawn home chdirOk post).2) := by
  induction pre with
  | nil => simp [exec_pipe_spawn_nil]
  | cons c pre ih =>
    by_cases hex : (run_stage c home chdirOk).2 = CMD_EXIT
    · rw [exec_pipe_spawn_cons_exit pre hex] at h
      simp at h
    · rw [exec_pipe_spawn_cons_cont pre hex] at h
      have h' : (exec_pipe_spawn home chdirOk pre).2 = false := by simpa using h
      rw [show (c :: pre) ++ post = c :: (pre ++ post) from rfl]
      rw [exec_pipe_spawn_cons_cont (pre ++ post) hex, ih h',
        exec_pipe_spawn_cons_cont pre hex]
      simp

/-! ## Claims -/

/-- C1, counterexample: in the two-stage pipeline `a | b`, when the stage
that exited with status 1 is reaped before the stage that exited with
status 0, the line's aggregated status is `CMD_SUCCESS` even though a
descendant exited nonzero — the reaping loop `while (wait(&status) > 0)`
keeps only the last reaped status, so reap order does matter. -/
theorem claim1_counterexample :
    (exec_pipe_run [⟨["a"], [], []⟩, ⟨["b"], [], []⟩] none (fun _ => false) [1, 0]).1
        = CMD_SUCCESS ∧
    ¬(∀ s ∈ ([1, 0] : List Nat), s = 0) := by
  constructor
  · rfl
  · decide

/-- C1 (amended): after all stages are spawned (none of them the built-in
`exit`), the executor reaps every spawned descendant, and the line's
aggregated status is success exactly when the last reaped descendant exited
with code 0 (success when nothing was reaped); a nonzero exit by a stage
that is not reaped last does not make the line fail, so the reap order
matters. -/
theorem claim1_status_is_last_reaped (cmds : List Cmd) (home : Option String)
    (chdirOk : String → Bool) (reaped : List Nat)
    (h : (exec_pipe_spawn home chdirOk cmds).2 = false) :
    exec_pipe_run cmds home chdirOk reaped =
      ((if reaped.getLastD 0 = 0 then CMD_SUCCESS else CMD_FAILURE),
       (exec_pipe_spawn home chdirOk cmds).1) := by
  simp only [exec_pipe_run, h, Bool.false_eq_true, if_false, wait_loop_eq_getLastD]

/-- C1, witness: a two-stage pipeline whose single reaped status is 7 is
reported as a failure. -/
theorem claim1_witness :
    exec_pipe_run [⟨["x"], [], []⟩, ⟨["y"], [], []⟩] none (fun _ => false) [7] =
      ((if ([7] : List Nat).getLastD 0 = 0 then CMD_SUCCESS else CMD_FAILURE),
       (exec_pipe_spawn none (fun _ => false) [⟨["x"], [], []⟩, ⟨["y"], [], []⟩]).1) :=
  claim1_status_is_last_reaped [⟨["x"], [], []⟩, ⟨["y"], [], []⟩] none (fun _ => false) [7] rfl

/-- C2, counterexample: the line `a || b` is not rejected — the lexer
discards the `||` sequence, the line parses as the single command with
argument list `[a, b]`, and that command is executed. -/
theorem claim2_counterexample :
    parse (getline ("a || b").data) = Except.ok [⟨["a", "b"], [], []⟩] ∧
    run_line (getline ("a || b").data) none (fun _ => false) [0] =
      LineOutcome.ran CMD_SUCCESS [StageAction.forkExec ⟨["a", "b"], [], []⟩] :=
  ⟨rfl, rfl⟩

/-- C2 (amended): for the input line `a || b` the tokenizer recognizes and
discards the `||` sequence, so the line tokenizes to the two words `a`, `b`
and parses successfully as one Command with argument list `[a, b]` and empty
redirect lists; no syntax error occurs. -/
theorem claim2_double_pipe_discarded :
    getline ("a || b").data = ["a", "b"] ∧
    parse ["a", "b"] = Except.ok [⟨["a", "b"], [], []⟩] :=
  ⟨rfl, rfl⟩

/-- C3: for every valid token segment the built Command's argument list is
exactly the prefix of the segment up to (excluding) the first redirect
symbol (the whole segment if there is none), and every word token following
a redirect symbol, up to the next redirect symbol or the end of the segment,
is appended to the filename list of the latest redirect symbol's direction;
in particular `cmd > out.txt < in.txt` yields one Command with argument list
`[cmd]`, output list `[out.txt]` and input list `[in.txt]`. -/
theorem claim3_segment_split :
    (∀ (seg : List String) (cmd : Cmd), new_cmd seg = Except.ok cmd →
      cmd.args = spec_args_before_redirect seg ∧
      cmd.files_in = (spec_file_lists none seg).1 ∧
      cmd.files_out = (spec_file_lists none seg).2) ∧
    parse (getline ("cmd > out.txt < in.txt").data) =
      Except.ok [⟨["cmd"], ["in.txt"], ["out.txt"]⟩] := by
  refine ⟨?_, rfl⟩
  intro seg cmd h
  exact new_cmd_ok_char h

/-- C3, witness: the split of the example segment `cmd > out.txt < in.txt`
computed by `new_cmd` agrees with the spec-side description. -/
theorem claim3_witness :
    (Cmd.mk ["cmd"] ["in.txt"] ["out.txt"]).args =
        spec_args_before_redirect ["cmd", ">", "out.txt", "<", "in.txt"] ∧
    (Cmd.mk ["cmd"] ["in.txt"] ["out.txt"]).files_in =
        (spec_file_lists none ["cmd", ">", "out.txt", "<", "in.txt"]).1 ∧
    (Cmd.mk ["cmd"] ["in.txt"] ["out.txt"]).files_out =
        (spec_file_lists none ["cmd", ">", "out.txt", "<", "in.txt"]).2 :=
  claim3_segment_split.1 ["cmd", ">", "out.txt", "<", "in.txt"]
    ⟨["cmd"], ["in.txt"], ["out.txt"]⟩ rfl

/-- C4, counterexample: the token list of the line `a < | | b` contains two
adjacent pipe tokens, yet parsing fails citing `<` (the first segment's
trailing redirect symbol is detected before the pipes are reached), not
`|`. -/
theorem claim4_counterexample :
    pipeAdjacent (getline ("a < | | b").data) ∧
    parse (getline ("a < | | b").data) = Except.error "<" ∧
    ("<" : String) ≠ "|" := by
  refine ⟨⟨["a", "<"], ["b"], rfl⟩, rfl, ?_⟩
  decide

/-- C4 (amended): for every token list in which a pipe token is first, last,
or adjacent to another pipe token, parsing fails with a syntax error whose
reported token follows the left-to-right citation rule `cited_tok` — `|` is
cited unless an earlier segment error is detected first, in which case that
segment's first offending redirect token is cited (so the cited token is
always `|` or a redirect symbol) — the whole line is discarded, and no
pipeline built from that line is executed. -/
theorem claim4_pipe_misplacement_rejected (args : List String)
    (h : pipeFirst args ∨ pipeLast args ∨ pipeAdjacent args) :
    (∃ e, parse args = Except.error e ∧ cited_tok args [] = some e ∧
      (e = "|" ∨ isRedirectTok e = true)) ∧
    ∀ (home : Option String) (chdirOk : String → Bool) (reaped : List Nat),
      run_line args home chdirOk reaped = LineOutcome.noExec := by
  have hne : args ≠ [] := by
    rcases h with h | h | h
    · intro hc
      rw [hc] at h
      simp [pipeFirst] at h
    · intro hc
      rw [hc] at h
      simp [pipeLast] at h
    · obtain ⟨l, r, hargs⟩ := h
      intro hc
      rw [hc] at hargs
      simp at hargs
  have herr : ∃ e, parse args = Except.error e := by
    rcases h with h | h | h
    · obtain ⟨rest, hargs⟩ : ∃ rest, args = "|" :: rest := by
        cases args with
        | nil => simp [pipeFirst] at h
        | cons a rest =>
          have ha : a = "|" := by simpa [pipeFirst] using h
          exact ⟨rest, by rw [ha]⟩
      subst hargs
      exact ⟨"|", parse_scan_cons_pipe_empty rest [] rfl rfl⟩
    · obtain ⟨e, he⟩ := parse_scan_error_of_pipeLast args [] h
      refine ⟨e, ?_⟩
      cases args with
      | nil => exact absurd rfl hne
      | cons a rest => exact he
    · obtain ⟨l, r, hargs⟩ := h
      subst hargs
      obtain ⟨e, he⟩ := parse_scan_error_of_adjacent l r []
      refine ⟨e, ?_⟩
      cases l with
      | nil => exact he
      | cons x xs => exact he
  obtain ⟨e, he⟩ := herr
  have hps : parse_scan args [] = Except.error e := by
    rw [← parse_ne_nil args hne]
    exact he
  have hct := (parse_scan_error_iff_cited args [] e).mp hps
  refine ⟨⟨e, he, hct, cited_tok_pipe_or_redirect args [] e hct⟩, ?_⟩
  intro home chdirOk reaped
  simp [run_line, he]

/-- C4, witness: the line whose token list is `| a` is rejected citing `|`
(no earlier segment error exists), is discarded, and executes nothing. -/
theorem claim4_witness :
    parse ["|", "a"] = Except.error "|" ∧
    run_line ["|", "a"] none (fun _ => false) [0] = LineOutcome.noExec := by
  obtain ⟨e, he1, he2, he3⟩ :=
    (claim4_pipe_misplacement_rejected ["|", "a"] (Or.inl rfl)).1
  have hct : cited_tok ["|", "a"] [] = some "|" := rfl
  have hee : (some "|" : Option String) = some e := by rw [← he2, hct]
  injection hee with h4
  rw [← h4] at he1
  exact ⟨he1,
    (claim4_pipe_misplacement_rejected ["|", "a"] (Or.inl rfl)).2 none (fun _ => false) [0]⟩

/-- C5, counterexample: the segment `< a b >` contains a redirect symbol
(`>`) that is the final token of the segment, but building the Command fails
citing `<` (the leading redirect symbol, detected first), not that `>`. -/
theorem claim5_counterexample :
    new_cmd ["<", "a", "b", ">"] = Except.error "<" ∧
    new_cmd ["<", "a", "b", ">"] ≠ Except.error ">" := by
  refine ⟨rfl, fun hc => ?_⟩
  rw [show new_cmd ["<", "a", "b", ">"] = Except.error "<" from rfl] at hc
  injection hc with hc'
  exact absurd hc' (by decide)

/-- C5 (amended): for every token segment containing a redirect symbol that
is the final token or that immediately follows another redirect symbol,
building the Command fails with a syntax error citing the first offending
redirect symbol met by the left-to-right scan (which is that symbol itself
unless an earlier redirect symbol already violates a placement rule); in
particular `a << b` is rejected citing the second `<`. -/
theorem claim5_redirect_misplacement :
    (∀ seg : List String,
      ((∃ pre s, isRedirectTok s = true ∧ seg = pre ++ [s]) ∨
       (∃ pre s t r, isRedirectTok s = true ∧ isRedirectTok t = true ∧
          seg = pre ++ s :: t :: r)) →
      ∃ e, first_bad seg true = some e ∧ new_cmd seg = Except.error e ∧
        isRedirectTok e = true) ∧
    parse (getline ("a << b").data) = Except.error "<" := by
  refine ⟨?_, rfl⟩
  intro seg h
  have hsome : (first_bad seg true).isSome := by
    rcases h with ⟨pre, s, hs, hseg⟩ | ⟨pre, s, t, r, hs, ht, hseg⟩
    · subst hseg
      exact first_bad_isSome_of_final pre s true hs
    · subst hseg
      exact first_bad_isSome_of_adjacent pre s t r true hs ht
  obtain ⟨e, he⟩ := Option.isSome_iff_exists.mp hsome
  refine ⟨e, he, ?_, first_bad_redirect seg true e he⟩
  unfold new_cmd
  rw [(new_cmd_scan_error_iff seg true nulChar e).mpr he]

/-- C5, witness: the segment `a < < b` (the token list of the line
`a << b`) has adjacent redirect symbols and is rejected citing the second
`<`. -/
theorem claim5_witness :
    new_cmd ["a", "<", "<", "b"] = Except.error "<" := by
  obtain ⟨e, he1, he2, he3⟩ :=
    claim5_redirect_misplacement.1 ["a", "<", "<", "b"]
      (Or.inr ⟨["a"], "<", "<", ["b"], rfl, rfl, rfl⟩)
  have hfb : first_bad ["a", "<", "<", "b"] true = some "<" := rfl
  have hee : (some "<" : Option String) = some e := by rw [← he1, hfb]
  injection hee with h4
  rw [← h4] at he2
  exact he2

/-- C6: the built-in `cd` with zero arguments changes to the `$HOME`
directory; with the single argument `~` it behaves identically, failing with
a descriptive error when `HOME` is unset; with a single argument starting
with `~` followed by more characters it fails with a tilde-expansion error
without attempting `chdir`; with two or more arguments it fails with a
too-many-arguments error without attempting `chdir`; any other single
argument is used literally, and a `chdir` failure is reported with that path
while the working directory stays unchanged. -/
theorem claim6_cd_cases :
    (∀ (h : String) (f : String → Bool),
      cmd_cd ["\nc"] (some h) f =
        if f h then CdOutcome.success h else CdOutcome.chdirFail h) ∧
    (∀ f : String → Bool, cmd_cd ["\nc"] none f = CdOutcome.homeUnset) ∧
    (∀ (home : Option String) (f : String → Bool),
      cmd_cd ["\nc", "~"] home f = cmd_cd ["\nc"] home f) ∧
    (∀ (t : String) (home : Option String) (f : String → Bool),
      charAt t 0 = '~' → charAt t 1 ≠ nulChar →
      cmd_cd ["\nc", t] home f = CdOutcome.tildeUnsupported) ∧
    (∀ (x y : String) (rest : List String) (home : Option String) (f : String → Bool),
      cmd_cd ("\nc" :: x :: y :: rest) home f = CdOutcome.tooManyArgs) ∧
    (∀ (p : String) (home : Option String) (f : String → Bool),
      charAt p 0 ≠ '~' →
      cmd_cd ["\nc", p] home f =
        if f p then CdOutcome.success p else CdOutcome.chdirFail p) := by
  refine ⟨?_, ?_, ?_, ?_, ?_, ?_⟩
  · intro h f
    show cd_go "~" (some h) f = _
    unfold cd_go
    rw [if_pos (show charAt "~" 0 = '~' from rfl),
      if_pos (show charAt "~" 1 = nulChar from rfl)]
  · intro f
    rfl
  · intro home f
    rfl
  · intro t home f h1 h2
    show cd_go t home f = _
    unfold cd_go
    rw [if_pos h1, if_neg h2]
  · intro x y rest home f
    have hlen : ("\nc" :: x :: y :: rest : List String).length > 2 := by
      simp only [List.length_cons]
      omega
    show (if ("\nc" :: x :: y :: rest : List String).length > 2 then CdOutcome.tooManyArgs
         else cd_go x home f) = CdOutcome.tooManyArgs
    rw [if_pos hlen]
  · intro p home f h1
    show cd_go p home f = _
    unfold cd_go
    rw [if_neg h1]

/-- C6, witness: `cd /tmp` with `HOME` set and a succeeding `chdir` changes
to `/tmp`. -/
theorem claim6_witness :
    cmd_cd ["\nc", "/tmp"] (some "/home/u") (fun _ => true) = CdOutcome.success "/tmp" := by
  have h := claim6_cd_cases.2.2.2.2.2 "/tmp" (some "/home/u") (fun _ => true) (by decide)
  simpa using h

/-- C7: if a line parses to exactly one Command whose program-name token is
the built-in `exit` marker, the interpreter returns `CMD_EXIT` (ending the
session) and the only stage action is the built-in `exit` — no process is
forked. -/
theorem claim7_sole_exit (args : List String) (c : Cmd) (home : Option String)
    (chdirOk : String → Bool) (reaped : List Nat)
    (hp : parse args = Except.ok [c])
    (hx : spawn_kind (c.args.headD "") = SpawnKind.runExit) :
    run_line args home chdirOk reaped = LineOutcome.ran CMD_EXIT [StageAction.exitBuiltin] := by
  unfold run_line
  rw [hp]
  show LineOutcome.ran (exec1 c home chdirOk reaped).1 (exec1 c home chdirOk reaped).2 =
    LineOutcome.ran CMD_EXIT [StageAction.exitBuiltin]
  unfold exec1
  rw [run_stage_exit c home chdirOk hx]
  simp

/-- C7, witness: the line `exit` ends the session without forking. -/
theorem claim7_witness :
    run_line (getline ("exit").data) none (fun _ => false) [0] =
      LineOutcome.ran CMD_EXIT [StageAction.exitBuiltin] :=
  claim7_sole_exit (getline ("exit").data) ⟨["\ne"], [], []⟩ none (fun _ => false) [0] rfl rfl

/-- C8: every line stores at most 63 tokens, and the parser creates at most
32 Commands per line — both on lines that parse successfully and counting
every array slot written while parsing a line that later fails — so the
32-element command array of `main` is never written past its end. -/
theorem claim8_capacity (line : List Char) :
    (getline line).length ≤ 63 ∧
    (∀ cs : List Cmd, parse (getline line) = Except.ok cs → cs.length ≤ 32) ∧
    cmds_written (getline line) [] ≤ 32 := by
  have hlen : (getline line).length ≤ 63 := by
    unfold getline
    simp [List.length_take]
  refine ⟨hlen, ?_, ?_⟩
  · intro cs h
    cases hg : getline line with
    | nil =>
      rw [hg] at h
      simp [parse] at h
    | cons a rest =>
      rw [hg] at h hlen
      have hb := parse_scan_length (a :: rest) [] cs h
      rw [if_pos rfl] at hb
      simp only [List.length_cons] at hb hlen
      omega
  · cases hg : getline line with
    | nil =>
      simp [cmds_written]
    | cons a rest =>
      have hb := cmds_written_bound (a :: rest) []
      rw [if_pos rfl] at hb
      rw [hg] at hlen
      simp only [List.length_cons] at hb hlen
      omega

/-- C8, witness: the line `a | b` respects all three bounds. -/
theorem claim8_witness :
    (getline ("a | b").data).length ≤ 63 ∧
    ([⟨["a"], [], []⟩, ⟨["b"], [], []⟩] : List Cmd).length ≤ 32 ∧
    cmds_written (getline ("a | b").data) [] ≤ 32 :=
  ⟨(claim8_capacity ("a | b").data).1,
   (claim8_capacity ("a | b").data).2.1 [⟨["a"], [], []⟩, ⟨["b"], [], []⟩] rfl,
   (claim8_capacity ("a | b").data).2.2⟩

/-- C9: when a `cd` marker command is a stage of a multi-command pipeline
(and no earlier stage hits the built-in `exit`), the executor runs `cd`
synchronously in its own process for that stage — the stage's action is
`cdInParent` (the interpreter's working directory may change), no child is
forked for it — and then continues spawning the remaining stages exactly as
it would for them alone. -/
theorem claim9_cd_stage_in_pipeline (pre post : List Cmd) (c : Cmd)
    (home : Option String) (chdirOk : String → Bool)
    (hcd : spawn_kind (c.args.headD "") = SpawnKind.runCd)
    (hpre : (exec_pipe_spawn home chdirOk pre).2 = false)
    (_hmulti : 2 ≤ (pre ++ c :: post).length) :
    exec_pipe_spawn home chdirOk (pre ++ c :: post) =
      ((exec_pipe_spawn home chdirOk pre).1 ++
        StageAction.cdInParent (cmd_cd c.args home chdirOk) ::
          (exec_pipe_spawn home chdirOk post).1,
       (exec_pipe_spawn home chdirOk post).2) := by
  have hrs := run_stage_cd c home chdirOk hcd
  have hne : ¬(run_stage c home chdirOk).2 = CMD_EXIT := by
    rw [hrs]
    exact cd_status_ne_exit _
  rw [exec_pipe_spawn_append home chdirOk pre (c :: post) hpre,
    exec_pipe_spawn_cons_cont post hne, hrs]

/-- C9, witness: in the three-stage pipeline `x | cd /tmp | y`, the middle
stage runs `cd` in the interpreter's process and the last stage is still
spawned. -/
theorem claim9_witness :
    exec_pipe_spawn none (fun _ => true)
        [⟨["x"], [], []⟩, ⟨["\nc", "/tmp"], [], []⟩, ⟨["y"], [], []⟩] =
      ((exec_pipe_spawn none (fun _ => true) [⟨["x"], [], []⟩]).1 ++
        StageAction.cdInParent
            (cmd_cd (Cmd.mk ["\nc", "/tmp"] [] []).args none (fun _ => true)) ::
          (exec_pipe_spawn none (fun _ => true) [⟨["y"], [], []⟩]).1,
       (exec_pipe_spawn none (fun _ => true) [⟨["y"], [], []⟩]).2) :=
  claim9_cd_stage_in_pipeline [⟨["x"], [], []⟩] [⟨["y"], [], []⟩]
    ⟨["\nc", "/tmp"], [], []⟩ none (fun _ => true) rfl rfl (by decide)

/-- C10: a token segment whose first token is a redirect symbol is rejected
citing that symbol (the scan's `i - last_index == 0` check fires at index
0), even though the symbol is neither final nor after another redirect; in
particular the line `< in.txt cmd` is a syntax error citing `<`. -/
theorem claim10_leading_redirect (r : String) (rest : List String)
    (h : isRedirectTok r = true) :
    new_cmd (r :: rest) = Except.error r ∧
    parse (getline ("< in.txt cmd").data) = Except.error "<" := by
  refine ⟨?_, rfl⟩
  unfold new_cmd
  have hscan : new_cmd_scan (r :: rest) true nulChar = Except.error r := by
    simp only [new_cmd_scan, if_pos h]
    rw [if_pos (Or.inr trivial)]
  rw [hscan]

/-- C10, witness: the segment of the line `< in.txt cmd` is rejected citing
the leading `<`. -/
theorem claim10_witness :
    new_cmd ["<", "in.txt", "cmd"] = Except.error "<" :=
  (claim10_leading_redirect "<" ["in.txt", "cmd"] rfl).1

end Minshell
